import Mathlib

/-!
Verification of the MiftahDB key-value layer.

This development shallowly embeds the value codec (`src/encoding.ts`), the
expiration normalization and result channel (`src/utils.ts`), and the public
operations of `BaseMiftahDB` (`src/base.ts`, with the numeric mutator from
`src/bun.ts`) over an explicit store state, and proves or refutes the frozen
specification claims about them.

Modelling conventions:
* JavaScript strings are modelled as lists of natural numbers (their UTF-16
  code units), so keys, patterns and error messages are `List Nat`.
* JavaScript numbers are modelled by `JSNum`: NaN, the two infinities, and
  finite values taken as exact rationals (exact for every integer the claims
  exercise; rounding of doubles is not modelled).
* `Date.now()` is an explicit `now : Int` argument threaded to every
  operation; a `Date` argument is represented by its `getTime()` integer.
* Byte sequences (`Uint8Array`/`Buffer` and the stored BLOB column) are
  modelled as `List Nat`.
-/

namespace MiftahDB

/-- Model of a JavaScript number: NaN, the infinities, or a finite value
(finite doubles are modelled as exact rationals). -/
inductive JSNum : Type
  | nan : JSNum
  | posInf : JSNum
  | negInf : JSNum
  | finite (q : ℚ) : JSNum
deriving DecidableEq

/-- JavaScript `isNaN` on a number (no coercion needed: the argument is
already a number). -/
def JSNum.isNaNb : JSNum → Bool
  | .nan => true
  | _ => false

/-- IEEE-style addition on the model of JavaScript numbers. -/
def JSNum.add : JSNum → JSNum → JSNum
  | .nan, _ => .nan
  | _, .nan => .nan
  | .posInf, .negInf => .nan
  | .negInf, .posInf => .nan
  | .posInf, _ => .posInf
  | _, .posInf => .posInf
  | .negInf, _ => .negInf
  | _, .negInf => .negInf
  | .finite a, .finite b => .finite (a + b)

/-- IEEE-style subtraction on the model of JavaScript numbers. -/
def JSNum.sub : JSNum → JSNum → JSNum
  | .nan, _ => .nan
  | _, .nan => .nan
  | .posInf, .posInf => .nan
  | .negInf, .negInf => .nan
  | .posInf, _ => .posInf
  | _, .posInf => .negInf
  | .negInf, _ => .negInf
  | _, .negInf => .posInf
  | .finite a, .finite b => .finite (a - b)

/-- A JavaScript string as its list of UTF-16 code units. -/
abbrev JSString := List Nat

/-- Code unit of `:` (the namespace delimiter). -/
def colonCU : Nat := 58

/-- Embed a Lean string literal as a `JSString` (list of code units). -/
def jstr (s : String) : JSString := s.data.map Char.toNat

mutual
/-- The supported application value kinds of `MiftahValue`
(`src/types.ts`): string, number, boolean, record, array, `Date`
(by its epoch-milliseconds), byte sequence (`Uint8Array`/`Buffer`,
unified as the spec allows), and null. -/
inductive MiftahValue : Type
  | str (s : JSString) : MiftahValue
  | num (n : JSNum) : MiftahValue
  | boolv (b : Bool) : MiftahValue
  | record (fs : MVFields) : MiftahValue
  | arr (xs : MVList) : MiftahValue
  | date (ms : Int) : MiftahValue
  | bytes (bs : List Nat) : MiftahValue
  | null : MiftahValue

/-- A finite sequence of values (an array literal). -/
inductive MVList : Type
  | nil : MVList
  | cons (hd : MiftahValue) (tl : MVList) : MVList

/-- A finite sequence of string-keyed fields (a record literal). -/
inductive MVFields : Type
  | nil : MVFields
  | cons (k : JSString) (v : MiftahValue) (tl : MVFields) : MVFields
end

/-- Number of entries in an `MVList`. -/
def MVList.len : MVList → Nat
  | .nil => 0
  | .cons _ tl => tl.len + 1

/-- Number of fields in an `MVFields`. -/
def MVFields.len : MVFields → Nat
  | .nil => 0
  | .cons _ _ tl => tl.len + 1

/-- Serialize an integer as a sign token followed by its magnitude
(helper of the msgpack model). -/
def intEnc (i : Int) : List Nat :=
  (if i < 0 then 0 else 1) :: i.natAbs :: []

/-- Parse an integer encoded by `intEnc`, returning it and the tail. -/
def intDec : List Nat → Option (Int × List Nat)
  | s :: m :: rest => if s = 0 then some (-(m : Int), rest) else some ((m : Int), rest)
  | _ => none

theorem intDec_intEnc (i : Int) (rest : List Nat) :
    intDec (intEnc i ++ rest) = some (i, rest) := by
  by_cases h : i < 0
  · simp only [intEnc, if_pos h, List.cons_append, List.nil_append, intDec, if_pos rfl]
    have : ((i.natAbs : Int)) = -i := Int.ofNat_natAbs_of_nonpos (le_of_lt h)
    rw [this]
    simp
  · simp only [intEnc, if_neg h, List.cons_append, List.nil_append, intDec]
    have : ((i.natAbs : Int)) = i := Int.natAbs_of_nonneg (not_lt.mp h)
    rw [this]
    simp

/-- Serialize a model JavaScript number (helper of the msgpack model). -/
def jsNumEnc : JSNum → List Nat
  | .nan => [0]
  | .posInf => [1]
  | .negInf => [2]
  | .finite q => 3 :: (intEnc q.num ++ [q.den])

/-- Parse a model JavaScript number encoded by `jsNumEnc`. -/
def jsNumDec : List Nat → Option (JSNum × List Nat)
  | 0 :: rest => some (.nan, rest)
  | 1 :: rest => some (.posInf, rest)
  | 2 :: rest => some (.negInf, rest)
  | 3 :: rest =>
    match intDec rest with
    | some (n, r2) =>
      match r2 with
      | d :: r3 => some (.finite (mkRat n d), r3)
      | [] => none
    | none => none
  | _ => none

theorem jsNumDec_jsNumEnc (n : JSNum) (rest : List Nat) :
    jsNumDec (jsNumEnc n ++ rest) = some (n, rest) := by
  cases n with
  | nan => rfl
  | posInf => rfl
  | negInf => rfl
  | finite q =>
    simp only [jsNumEnc, List.cons_append, List.append_assoc, jsNumDec]
    rw [intDec_intEnc]
    simp [Rat.mkRat_self]

mutual
/-- Model of the external `msgpack-lite` `encode`: a self-describing tagged
binary serialization capable of round-tripping the supported value kinds,
including timestamps (spec §4.1). The byte layout is a model, not the real
msgpack wire format; the repository code only relies on the library's
round-trip contract. -/
def mpEncode : MiftahValue → List Nat
  | .str s => 0 :: s.length :: s
  | .num n => 1 :: jsNumEnc n
  | .boolv b => 2 :: [if b then 1 else 0]
  | .record fs => 3 :: fs.len :: mpEncodeFields fs
  | .arr xs => 4 :: xs.len :: mpEncodeList xs
  | .date ms => 5 :: intEnc ms
  | .bytes bs => 6 :: bs.length :: bs
  | .null => [7]

/-- Serialize the elements of an array, in order. -/
def mpEncodeList : MVList → List Nat
  | .nil => []
  | .cons hd tl => mpEncode hd ++ mpEncodeList tl

/-- Serialize the fields of a record, in order (length-prefixed key, then
the value). -/
def mpEncodeFields : MVFields → List Nat
  | .nil => []
  | .cons k v tl => k.length :: (k ++ mpEncode v ++ mpEncodeFields tl)
end

mutual
/-- Model of the external `msgpack-lite` `decode`: a fuel-indexed prefix
parser for `mpEncode`'s format, returning the value and the unconsumed
tail, or `none` on any malformed payload (the library throws there). -/
def mpDecode : Nat → List Nat → Option (MiftahValue × List Nat)
  | 0, _ => none
  | Nat.succ fuel, input =>
    match input with
    | 0 :: n :: rest =>
      if n ≤ rest.length then some (.str (rest.take n), rest.drop n) else none
    | 1 :: rest =>
      match jsNumDec rest with
      | some p => some (.num p.1, p.2)
      | none => none
    | 2 :: b :: rest => some (.boolv (b = 1), rest)
    | 3 :: n :: rest =>
      match mpDecodeFields fuel n rest with
      | some p => some (.record p.1, p.2)
      | none => none
    | 4 :: n :: rest =>
      match mpDecodeList fuel n rest with
      | some p => some (.arr p.1, p.2)
      | none => none
    | 5 :: rest =>
      match intDec rest with
      | some p => some (.date p.1, p.2)
      | none => none
    | 6 :: n :: rest =>
      if n ≤ rest.length then some (.bytes (rest.take n), rest.drop n) else none
    | 7 :: rest => some (.null, rest)
    | _ => none

/-- Parse `n` consecutive array elements. -/
def mpDecodeList : Nat → Nat → List Nat → Option (MVList × List Nat)
  | _, 0, input => some (.nil, input)
  | 0, Nat.succ _, _ => none
  | Nat.succ fuel, Nat.succ n, input =>
    match mpDecode fuel input with
    | some p =>
      match mpDecodeList fuel n p.2 with
      | some q => some (.cons p.1 q.1, q.2)
      | none => none
    | none => none

/-- Parse `n` consecutive record fields. -/
def mpDecodeFields : Nat → Nat → List Nat → Option (MVFields × List Nat)
  | _, 0, input => some (.nil, input)
  | 0, Nat.succ _, _ => none
  | Nat.succ fuel, Nat.succ n, input =>
    match input with
    | kl :: rest =>
      if kl ≤ rest.length then
        match mpDecode fuel (rest.drop kl) with
        | some p =>
          match mpDecodeFields fuel n p.2 with
          | some q => some (.cons (rest.take kl) p.1 q.1, q.2)
          | none => none
        | none => none
      else none
    | [] => none
end

mutual
/-- Parser fuel a value's encoding needs: its nesting depth. -/
def mvFuel : MiftahValue → Nat
  | .record fs => mvfFuel fs + 1
  | .arr xs => mvlFuel xs + 1
  | _ => 1

/-- Parser fuel an array body needs. -/
def mvlFuel : MVList → Nat
  | .nil => 0
  | .cons hd tl => max (mvFuel hd) (mvlFuel tl) + 1

/-- Parser fuel a record body needs. -/
def mvfFuel : MVFields → Nat
  | .nil => 0
  | .cons _ v tl => max (mvFuel v) (mvfFuel tl) + 1
end

/-- Every encoding starts with a tag token, so it is nonempty. -/
theorem mpEncode_length_pos (v : MiftahValue) : 1 ≤ (mpEncode v).length := by
  cases v <;> simp [mpEncode]

mutual
/-- The fuel a value needs is covered by the length of its encoding. -/
theorem mvFuel_le_len : ∀ v : MiftahValue, mvFuel v ≤ (mpEncode v).length
  | .str s => by simp [mvFuel, mpEncode]
  | .num n => by simp [mvFuel, mpEncode]
  | .boolv b => by simp [mvFuel, mpEncode]
  | .record fs => by
    have h := mvfFuel_le_len fs
    simp only [mvFuel, mpEncode, List.length_cons]
    omega
  | .arr xs => by
    have h := mvlFuel_le_len xs
    simp only [mvFuel, mpEncode, List.length_cons]
    omega
  | .date ms => by simp [mvFuel, mpEncode]
  | .bytes bs => by simp [mvFuel, mpEncode]
  | .null => by simp [mvFuel, mpEncode]

/-- The fuel an array body needs is covered by its encoded length plus one. -/
theorem mvlFuel_le_len : ∀ xs : MVList, mvlFuel xs ≤ (mpEncodeList xs).length + 1
  | .nil => by simp [mvlFuel]
  | .cons hd tl => by
    have h1 := mvFuel_le_len hd
    have h2 := mvlFuel_le_len tl
    have h3 := mpEncode_length_pos hd
    simp only [mvlFuel, mpEncodeList, List.length_append, Nat.max_def]
    split <;> omega

/-- The fuel a record body needs is covered by its encoded length plus one. -/
theorem mvfFuel_le_len : ∀ fs : MVFields, mvfFuel fs ≤ (mpEncodeFields fs).length + 1
  | .nil => by simp [mvfFuel]
  | .cons k v tl => by
    have h1 := mvFuel_le_len v
    have h2 := mvfFuel_le_len tl
    have h3 := mpEncode_length_pos v
    simp only [mvfFuel, mpEncodeFields, List.length_cons, List.length_append, Nat.max_def]
    split <;> omega
end

mutual
/-- Round-trip of the msgpack model: decoding an encoded value off the
front of a stream returns the value and the unconsumed tail, given enough
fuel. -/
theorem mpDecode_mpEncode : ∀ (v : MiftahValue) (fuel : Nat) (rest : List Nat),
    mvFuel v ≤ fuel → mpDecode fuel (mpEncode v ++ rest) = some (v, rest)
  | .str s, fuel, rest, h => by
    obtain ⟨f, rfl⟩ : ∃ f, fuel = f + 1 := by
      simp only [mvFuel] at h
      exact ⟨fuel - 1, by omega⟩
    simp only [mpEncode, List.cons_append, List.append_assoc, mpDecode]
    rw [if_pos (by simp)]
    rw [List.take_left' rfl, List.drop_left' rfl]
  | .num n, fuel, rest, h => by
    obtain ⟨f, rfl⟩ : ∃ f, fuel = f + 1 := by
      simp only [mvFuel] at h
      exact ⟨fuel - 1, by omega⟩
    simp only [mpEncode, List.cons_append, mpDecode]
    rw [jsNumDec_jsNumEnc]
  | .boolv b, fuel, rest, h => by
    obtain ⟨f, rfl⟩ : ∃ f, fuel = f + 1 := by
      simp only [mvFuel] at h
      exact ⟨fuel - 1, by omega⟩
    cases b <;> simp [mpEncode, mpDecode]
  | .record fs, fuel, rest, h => by
    obtain ⟨f, rfl⟩ : ∃ f, fuel = f + 1 := by
      simp only [mvFuel] at h
      exact ⟨fuel - 1, by omega⟩
    have hf : mvfFuel fs ≤ f := by
      simp only [mvFuel] at h
      omega
    simp only [mpEncode, List.cons_append, List.append_assoc, mpDecode]
    rw [mpDecodeFields_mpEncodeFields fs f rest hf]
  | .arr xs, fuel, rest, h => by
    obtain ⟨f, rfl⟩ : ∃ f, fuel = f + 1 := by
      simp only [mvFuel] at h
      exact ⟨fuel - 1, by omega⟩
    have hf : mvlFuel xs ≤ f := by
      simp only [mvFuel] at h
      omega
    simp only [mpEncode, List.cons_append, List.append_assoc, mpDecode]
    rw [mpDecodeList_mpEncodeList xs f rest hf]
  | .date ms, fuel, rest, h => by
    obtain ⟨f, rfl⟩ : ∃ f, fuel = f + 1 := by
      simp only [mvFuel] at h
      exact ⟨fuel - 1, by omega⟩
    simp only [mpEncode, List.cons_append, mpDecode]
    rw [intDec_intEnc]
  | .bytes bs, fuel, rest, h => by
    obtain ⟨f, rfl⟩ : ∃ f, fuel = f + 1 := by
      simp only [mvFuel] at h
      exact ⟨fuel - 1, by omega⟩
    simp only [mpEncode, List.cons_append, List.append_assoc, mpDecode]
    rw [if_pos (by simp)]
    rw [List.take_left' rfl, List.drop_left' rfl]
  | .null, fuel, rest, h => by
    obtain ⟨f, rfl⟩ : ∃ f, fuel = f + 1 := by
      simp only [mvFuel] at h
      exact ⟨fuel - 1, by omega⟩
    simp [mpEncode, mpDecode]

/-- Round-trip for array bodies. -/
theorem mpDecodeList_mpEncodeList : ∀ (xs : MVList) (fuel : Nat) (rest : List Nat),
    mvlFuel xs ≤ fuel → mpDecodeList fuel xs.len (mpEncodeList xs ++ rest) = some (xs, rest)
  | .nil, fuel, rest, _ => by
    simp [MVList.len, mpEncodeList, mpDecodeList]
  | .cons hd tl, fuel, rest, h => by
    obtain ⟨f, rfl⟩ : ∃ f, fuel = f + 1 := by
      simp only [mvlFuel] at h
      exact ⟨fuel - 1, by omega⟩
    have hhd : mvFuel hd ≤ f := by
      simp only [mvlFuel] at h
      have := Nat.le_max_left (mvFuel hd) (mvlFuel tl)
      omega
    have htl : mvlFuel tl ≤ f := by
      simp only [mvlFuel] at h
      have := Nat.le_max_right (mvFuel hd) (mvlFuel tl)
      omega
    simp only [MVList.len, mpEncodeList, List.append_assoc, mpDecodeList]
    rw [mpDecode_mpEncode hd f _ hhd]
    simp only []
    rw [mpDecodeList_mpEncodeList tl f rest htl]

/-- Round-trip for record bodies. -/
theorem mpDecodeFields_mpEncodeFields : ∀ (fs : MVFields) (fuel : Nat) (rest : List Nat),
    mvfFuel fs ≤ fuel → mpDecodeFields fuel fs.len (mpEncodeFields fs ++ rest) = some (fs, rest)
  | .nil, fuel, rest, _ => by
    simp [MVFields.len, mpEncodeFields, mpDecodeFields]
  | .cons k v tl, fuel, rest, h => by
    obtain ⟨f, rfl⟩ : ∃ f, fuel = f + 1 := by
      simp only [mvfFuel] at h
      exact ⟨fuel - 1, by omega⟩
    have hv : mvFuel v ≤ f := by
      simp only [mvfFuel] at h
      have := Nat.le_max_left (mvFuel v) (mvfFuel tl)
      omega
    have htl : mvfFuel tl ≤ f := by
      simp only [mvfFuel] at h
      have := Nat.le_max_right (mvFuel v) (mvfFuel tl)
      omega
    simp only [MVFields.len, mpEncodeFields, List.cons_append, List.append_assoc,
      mpDecodeFields]
    rw [if_pos (by simp)]
    rw [List.take_left' rfl, List.drop_left' rfl]
    rw [mpDecode_mpEncode v f _ hv]
    simp only []
    rw [mpDecodeFields_mpEncodeFields tl f rest htl]
end

/-- `encodeValue` from src/encoding.ts (lines 46-54): marker `0x01` for a
byte-sequence value (`value instanceof Uint8Array`), otherwise marker
`0x02` followed by the msgpack payload. -/
def encodeValue (value : MiftahValue) : List Nat :=
  match value with
  | .bytes bs => 1 :: bs
  | v => 2 :: mpEncode v

/-- `decodeValue` from src/encoding.ts (lines 56-71): dispatch on the first
byte; raw bytes for marker `0x01`, msgpack decode for `0x02`; an unknown
marker, an empty buffer, or a failing msgpack decode is caught by the
surrounding `try`/`catch` and yields `null` (modelled as `none`). The fuel
handed to the msgpack model is sufficient for any payload the encoder
produced (`mvFuel_le_len`). -/
def decodeValue (buffer : List Nat) : Option MiftahValue :=
  match buffer with
  | [] => none
  | marker :: actualValue =>
    if marker = 1 then some (.bytes actualValue)
    else if marker = 2 then
      match mpDecode (actualValue.length + 1) actualValue with
      | some p => some p.1
      | none => none
    else none

/-- Decoding a non-bytes value's tagged encoding recovers it. -/
theorem decodeValue_two (v : MiftahValue) : decodeValue (2 :: mpEncode v) = some v := by
  have h := mpDecode_mpEncode v ((mpEncode v).length + 1) []
    (le_trans (mvFuel_le_len v) (Nat.le_succ _))
  rw [List.append_nil] at h
  simp [decodeValue, h]

/-- The codec round-trip: `decodeValue ∘ encodeValue` is the identity on
every supported value. -/
theorem decodeValue_encodeValue (v : MiftahValue) : decodeValue (encodeValue v) = some v := by
  cases v with
  | bytes bs => rfl
  | str s => exact decodeValue_two _
  | num n => exact decodeValue_two _
  | boolv b => exact decodeValue_two _
  | record fs => exact decodeValue_two _
  | arr xs => exact decodeValue_two _
  | date ms => exact decodeValue_two _
  | null => exact decodeValue_two _

/-- One stored row: the BLOB `value` column and the nullable integer
`expires_at` column (`CREATE_TABLE` in src/statements.ts; spec §3). -/
structure EngineRow : Type where
  value : List Nat
  expires_at : Option Int

/-- The store state: the key-value table as an association list with
unique keys, plus the physical keys whose writes the engine is injected to
fail — the spec §8 "forced failure" apparatus for batch atomicity; an
empty `failKeys` is a normally-behaving engine. -/
structure DBState : Type where
  table : List (JSString × EngineRow)
  failKeys : List JSString

/-- Row lookup (`SELECT ... WHERE key = ? LIMIT 1`). -/
def tableGet : List (JSString × EngineRow) → JSString → Option EngineRow
  | [], _ => none
  | (k', r) :: t, k => if k' = k then some r else tableGet t k

/-- Upsert (`INSERT OR REPLACE`). -/
def tableSet : List (JSString × EngineRow) → JSString → EngineRow → List (JSString × EngineRow)
  | [], k, r => [(k, r)]
  | (k', r') :: t, k, r => if k' = k then (k, r) :: t else (k', r') :: tableSet t k r

/-- Row removal (`DELETE ... WHERE key = ?`), with the changed-row count. -/
def tableDelete : List (JSString × EngineRow) → JSString → List (JSString × EngineRow) × Nat
  | [], _ => ([], 0)
  | (k', r') :: t, k =>
    let res := tableDelete t k
    if k' = k then (res.1, res.2 + 1) else ((k', r') :: res.1, res.2)

theorem tableGet_tableSet_self (tbl : List (JSString × EngineRow)) (k : JSString)
    (r : EngineRow) : tableGet (tableSet tbl k r) k = some r := by
  induction tbl with
  | nil => simp [tableSet, tableGet]
  | cons hd t ih =>
    obtain ⟨k', r'⟩ := hd
    by_cases h : k' = k
    · simp [tableSet, h, tableGet]
    · simp [tableSet, h, tableGet, ih]

/-- A stateful computation over the store that may throw a JavaScript
exception carrying a message. -/
abbrev Comp (α : Type) := DBState → DBState × Except JSString α

/-- Error message of `get`/`exists`/`ttl` on a missing key (src/base.ts). -/
def errKeyNotFound : JSString := jstr "Key not found"

/-- Error message of `get`/`ttl` on an expired key (src/base.ts). -/
def errKeyExpired : JSString := jstr "Key expired"

/-- Error message of `getExpire` on a key without expiration (src/base.ts). -/
def errNoExpiration : JSString := jstr "Key has no expiration"

/-- Message of the modelled engine failure injected through `failKeys`. -/
def errEngine : JSString := jstr "Engine failure"

/-- Amount-validation message of `increment` (src/bun.ts line 184). -/
def errIncrementAmount : JSString := jstr "Increment amount must be a valid number."

/-- Amount-validation message of `decrement` (src/bun.ts line 193). -/
def errDecrementAmount : JSString := jstr "Decrement amount must be a valid number."

/-- The `Value for key "<key>" is not a number.` message of the numeric
mutator (src/bun.ts lines 131-137). -/
def errValueNotNumber (key : JSString) : JSString :=
  jstr "Value for key \"" ++ key ++ jstr "\" is not a number."

/-- Write-check message of the numeric mutator (src/bun.ts line 159). -/
def errFailedUpdate : JSString := jstr "Failed to update the key during numeric operation."

/-- The data payloads the embedded operations produce (the `data` field of
a successful `Result`): `undefined` from a bare `OK()`, booleans, decoded
values (or `null`), numbers, change counts, `Date`s, and `ttl`'s
`number | null`. -/
inductive Val : Type
  | undef : Val
  | boolv (b : Bool) : Val
  | mval (v : Option MiftahValue) : Val
  | numv (n : JSNum) : Val
  | intv (n : Nat) : Val
  | datev (t : Int) : Val
  | ttlv (t : Option Int) : Val

/-- `Result` from src/types.ts: `{success: true, data}` or
`{success: false, error}`. -/
inductive Result : Type
  | ok (data : Val) : Result
  | err (error : JSString) : Result

/-- `SQL_STATEMENTS.GET`: look up `value, expires_at` for a key. -/
def stmtGet (db : DBState) (k : JSString) : Option EngineRow := tableGet db.table k

/-- `SQL_STATEMENTS.SET` (`INSERT OR REPLACE ...`): upsert, reporting one
changed row; keys in `failKeys` throw the injected engine failure. -/
def stmtSetRun (k : JSString) (v : List Nat) (ea : Option Int) : Comp Nat := fun db =>
  if k ∈ db.failKeys then (db, Except.error errEngine)
  else (⟨tableSet db.table k ⟨v, ea⟩, db.failKeys⟩, Except.ok 1)

/-- `SQL_STATEMENTS.DELETE`: remove the key's row, reporting the count. -/
def stmtDeleteRun (k : JSString) : Comp Nat := fun db =>
  (⟨(tableDelete db.table k).1, db.failKeys⟩, Except.ok (tableDelete db.table k).2)

/-- Modelled from the spec: the `EXISTS` statement prepared in src/base.ts
is not among the provided statement sources; per spec §6's schema and the
call site (bound to the key only, with no time parameter) it is a
key-presence query returning one 0/1 column. -/
def stmtExistsGet (db : DBState) (k : JSString) : Nat :=
  if (tableGet db.table k).isSome then 1 else 0

/-- Modelled from the spec: the `GET_EXPIRE` statement prepared in
src/base.ts is not among the provided statement sources; per its read
sites (rows typed `{expires_at: number | null}`) it selects the
`expires_at` column of the key's row. -/
def stmtGetExpireGet (db : DBState) (k : JSString) : Option (Option Int) :=
  (tableGet db.table k).map (fun r => r.expires_at)

/-- `db.transaction(fn)()` of the embedded engine: run `fn`; if it throws,
every write of `fn` is rolled back and the exception propagates
(spec §2, §5). -/
def dbTransaction {α : Type} (fn : Comp α) : Comp α := fun db =>
  match fn db with
  | (db', Except.ok a) => (db', Except.ok a)
  | (_, Except.error e) => (db, Except.error e)

/-- `SafeExecution` from src/utils.ts (lines 40-59): the method decorator
that catches any thrown error and reports it as a failure `Result`; a
normal return (already a `Result`) passes through unchanged, and writes
performed before a throw are kept (the decorator does not roll back). -/
def SafeExecution (body : Comp Result) : DBState → DBState × Result := fun db =>
  match body db with
  | (db', Except.ok r) => (db', r)
  | (db', Except.error e) => (db', Result.err e)

/-- The `expiresAt?: Date | number` argument of `set`/`setExpire`:
absent (`undefined`), a relative TTL number (modelled as integer
milliseconds; a NaN TTL, being falsy, behaves like the zero case), or an
absolute `Date` given by its `getTime()`. -/
inductive ExpireArg : Type
  | undef : ExpireArg
  | ttlMs (n : Int) : ExpireArg
  | date (t : Int) : ExpireArg

/-- `expiresAtMs` from src/utils.ts (lines 62-74): normalize the argument
to absolute epoch milliseconds. The `if (expiresAt)` truthiness test skips
`undefined` and the number `0`; a `Date` object is always truthy. -/
def expiresAtMs (now : Int) : ExpireArg → Option Int
  | .undef => none
  | .ttlMs n => if n = 0 then none else some (now + n)
  | .date t => some t

/-- `addNamespacePrefix` (src/base.ts lines 81-83): `prefix + ":" + key`
when a truthy (non-null, nonempty) prefix is set, else the key unchanged. -/
def addNamespacePrefix (pfx : Option JSString) (k : JSString) : JSString :=
  match pfx with
  | none => k
  | some p => if p = [] then k else p ++ colonCU :: k

/-- `removeNamespacePrefix` (src/base.ts lines 85-89): strip the prefix and
delimiter exactly when the key starts with `prefix + ":"`, else return the
key unchanged. -/
def removeNamespacePrefix (pfx : Option JSString) (key : JSString) : JSString :=
  match pfx with
  | none => key
  | some p =>
    if p = [] then key
    else if (p ++ [colonCU]).isPrefixOf key then key.drop (p.length + 1) else key

/-- The lazy-expiry test `result.expires_at && result.expires_at <= Date.now()`
(src/base.ts line 107, src/bun.ts line 125): a truthy `expires_at`
(non-null and nonzero) that is not in the future. -/
def expiryGuard (ea : Option Int) (now : Int) : Bool :=
  match ea with
  | none => false
  | some t => decide (t ≠ 0) && decide (t ≤ now)

namespace BaseMiftahDB

/-- Body of `delete` (src/base.ts lines 143-147): run the DELETE statement
and report its change count. -/
def deleteBody (pfx : Option JSString) (key : JSString) : Comp Result := fun db =>
  match stmtDeleteRun (addNamespacePrefix pfx key) db with
  | (db', Except.ok changes) => (db', Except.ok (Result.ok (Val.intv changes)))
  | (db', Except.error e) => (db', Except.error e)

/-- `delete`: the body behind its `@SafeExecution` decorator. -/
def delete (pfx : Option JSString) (key : JSString) : DBState → DBState × Result :=
  SafeExecution (deleteBody pfx key)

/-- Body of `get` (src/base.ts lines 100-114): read the row; a row passing
the expiry guard is lazily deleted — through the public `delete`, which
prefixes the already-prefixed key again — and reported expired; otherwise
the value is decoded and returned. -/
def getBody (pfx : Option JSString) (now : Int) (key : JSString) : Comp Result := fun db =>
  match stmtGet db (addNamespacePrefix pfx key) with
  | none => (db, Except.error errKeyNotFound)
  | some result =>
    if expiryGuard result.expires_at now then
      ((delete pfx (addNamespacePrefix pfx key) db).1, Except.error errKeyExpired)
    else
      (db, Except.ok (Result.ok (Val.mval (decodeValue result.value))))

/-- `get`: the body behind its `@SafeExecution` decorator. -/
def get (pfx : Option JSString) (now : Int) (key : JSString) : DBState → DBState × Result :=
  SafeExecution (getBody pfx now key)

/-- Body of `set` (src/base.ts lines 116-129): upsert the encoded value
with the normalized expiration. -/
def setBody (pfx : Option JSString) (now : Int) (key : JSString) (value : MiftahValue)
    (expiresAt : ExpireArg) : Comp Result := fun db =>
  match stmtSetRun (addNamespacePrefix pfx key) (encodeValue value)
      (expiresAtMs now expiresAt) db with
  | (db', Except.ok _) => (db', Except.ok (Result.ok Val.undef))
  | (db', Except.error e) => (db', Except.error e)

/-- `set`: the body behind its `@SafeExecution` decorator. -/
def set (pfx : Option JSString) (now : Int) (key : JSString) (value : MiftahValue)
    (expiresAt : ExpireArg) : DBState → DBState × Result :=
  SafeExecution (setBody pfx now key value expiresAt)

/-- Body of `exists` (src/base.ts lines 131-141; named `existsKey` here
because `exists` is a Lean keyword): run the EXISTS statement, throw
`Key not found` on 0, else return the boolean. -/
def existsKeyBody (pfx : Option JSString) (key : JSString) : Comp Result := fun db =>
  let doExists := stmtExistsGet db (addNamespacePrefix pfx key) ≠ 0
  if doExists then (db, Except.ok (Result.ok (Val.boolv doExists)))
  else (db, Except.error errKeyNotFound)

/-- `exists`: the body behind its `@SafeExecution` decorator. -/
def existsKey (pfx : Option JSString) (key : JSString) : DBState → DBState × Result :=
  SafeExecution (existsKeyBody pfx key)

/-- Body of `getExpire` (src/base.ts lines 170-184): read the row's
`expires_at`; throw on a missing row; the `if (!result.expires_at)`
falsy test throws `Key has no expiration` for both a null and a zero
timestamp; otherwise return the date — with no comparison against now. -/
def getExpireBody (pfx : Option JSString) (key : JSString) : Comp Result := fun db =>
  match stmtGetExpireGet db (addNamespacePrefix pfx key) with
  | none => (db, Except.error errKeyNotFound)
  | some ea =>
    match ea with
    | none => (db, Except.error errNoExpiration)
    | some t =>
      if t = 0 then (db, Except.error errNoExpiration)
      else (db, Except.ok (Result.ok (Val.datev t)))

/-- `getExpire`: the body behind its `@SafeExecution` decorator. -/
def getExpire (pfx : Option JSString) (key : JSString) : DBState → DBState × Result :=
  SafeExecution (getExpireBody pfx key)

/-- Body of `ttl` (src/base.ts lines 186-210): `null` expiration reports
`OK(null)`; a timestamp `<= now` triggers the lazy delete (again through
the re-prefixing public `delete`) and `Key expired`; otherwise the
remaining milliseconds. -/
def ttlBody (pfx : Option JSString) (now : Int) (key : JSString) : Comp Result := fun db =>
  match stmtGetExpireGet db (addNamespacePrefix pfx key) with
  | none => (db, Except.error errKeyNotFound)
  | some ea =>
    match ea with
    | none => (db, Except.ok (Result.ok (Val.ttlv none)))
    | some t =>
      if t ≤ now then
        ((delete pfx (addNamespacePrefix pfx key) db).1, Except.error errKeyExpired)
      else (db, Except.ok (Result.ok (Val.ttlv (some (t - now)))))

/-- `ttl`: the body behind its `@SafeExecution` decorator. -/
def ttl (pfx : Option JSString) (now : Int) (key : JSString) : DBState → DBState × Result :=
  SafeExecution (ttlBody pfx now key)

/-- One `multiSet` entry `{ key, value, expiresAt? }`. -/
structure SetEntry : Type where
  key : JSString
  value : MiftahValue
  expiresAt : ExpireArg

/-- The `for (const entry of entries) this.set(...)` loop of `multiSet`:
each iteration goes through the public (decorated) `set` and discards its
`Result`. -/
def multiSetLoop (pfx : Option JSString) (now : Int) : List SetEntry → Comp Unit
  | [] => fun db => (db, Except.ok ())
  | e :: rest => fun db =>
    multiSetLoop pfx now rest (set pfx now e.key e.value e.expiresAt db).1

/-- Body of `multiSet` (src/base.ts lines 315-326): run the loop inside
one engine transaction and report success. -/
def multiSetBody (pfx : Option JSString) (now : Int) (entries : List SetEntry) :
    Comp Result := fun db =>
  match dbTransaction (multiSetLoop pfx now entries) db with
  | (db', Except.ok _) => (db', Except.ok (Result.ok Val.undef))
  | (db', Except.error e) => (db', Except.error e)

/-- `multiSet`: the body behind its `@SafeExecution` decorator. -/
def multiSet (pfx : Option JSString) (now : Int) (entries : List SetEntry) :
    DBState → DBState × Result :=
  SafeExecution (multiSetBody pfx now entries)

/-- The write tail of `_modifyNumericValue`'s transaction (src/bun.ts
lines 145-160): compute `new = current ± amount`, upsert it with the
carried expiration, and check the reported change count. -/
def modifyNumericWrite (prefixedKey : JSString) (amount : JSNum) (isIncrement : Bool)
    (current : JSNum) (expiresAt : Option Int) (keyExisted : Bool) : Comp JSNum := fun db =>
  let newValue := if isIncrement then current.add amount else current.sub amount
  match stmtSetRun prefixedKey (encodeValue (.num newValue)) expiresAt db with
  | (db', Except.ok changes) =>
    if changes = 0 && keyExisted then (db', Except.error errFailedUpdate)
    else (db', Except.ok newValue)
  | (db', Except.error e) => (db', Except.error e)

/-- The transaction body of `_modifyNumericValue` (src/bun.ts lines
116-161): an absent row, or a present row passing the expiry guard, is
treated as current value `0` with no expiration to carry; a live row must
decode to a non-NaN number (else the `is not a number` throw), and its
expiration is preserved. -/
def modifyNumericTx (pfx : Option JSString) (now : Int) (prefixedKey : JSString)
    (amount : JSNum) (isIncrement : Bool) : Comp JSNum := fun db =>
  match tableGet db.table prefixedKey with
  | some row =>
    if expiryGuard row.expires_at now then
      modifyNumericWrite prefixedKey amount isIncrement (JSNum.finite 0) none true db
    else
      match decodeValue row.value with
      | some (MiftahValue.num n) =>
        if n.isNaNb then
          (db, Except.error (errValueNotNumber (removeNamespacePrefix pfx prefixedKey)))
        else modifyNumericWrite prefixedKey amount isIncrement n row.expires_at true db
      | _ => (db, Except.error (errValueNotNumber (removeNamespacePrefix pfx prefixedKey)))
  | none => modifyNumericWrite prefixedKey amount isIncrement (JSNum.finite 0) none false db

/-- `_modifyNumericValue` (src/bun.ts lines 107-170): run the
read-modify-write inside one engine transaction and wrap the new value in
`OK`; the surrounding `try`/`catch` rethrows, so a transaction failure
propagates to `increment`/`decrement`, whose decorator catches it. -/
def modifyNumericValue (pfx : Option JSString) (now : Int) (key : JSString)
    (amount : JSNum) (isIncrement : Bool) : Comp Result := fun db =>
  match dbTransaction (modifyNumericTx pfx now (addNamespacePrefix pfx key)
      amount isIncrement) db with
  | (db', Except.ok newValue) => (db', Except.ok (Result.ok (Val.numv newValue)))
  | (db', Except.error e) => (db', Except.error e)

/-- Body of `increment` (src/bun.ts lines 181-188): the amount check
`typeof amount !== "number" || isNaN(amount)` rejects exactly NaN here
(amounts are numbers in the model), before the transaction. -/
def incrementBody (pfx : Option JSString) (now : Int) (key : JSString) (amount : JSNum) :
    Comp Result := fun db =>
  if amount.isNaNb then (db, Except.error errIncrementAmount)
  else modifyNumericValue pfx now key amount true db

/-- `increment`: the body behind its `@SafeExecution` decorator. -/
def increment (pfx : Option JSString) (now : Int) (key : JSString) (amount : JSNum) :
    DBState → DBState × Result :=
  SafeExecution (incrementBody pfx now key amount)

/-- Body of `decrement` (src/bun.ts lines 190-197): same validation as
`increment`, then the subtracting mutation. -/
def decrementBody (pfx : Option JSString) (now : Int) (key : JSString) (amount : JSNum) :
    Comp Result := fun db =>
  if amount.isNaNb then (db, Except.error errDecrementAmount)
  else modifyNumericValue pfx now key amount false db

/-- `decrement`: the body behind its `@SafeExecution` decorator. -/
def decrement (pfx : Option JSString) (now : Int) (key : JSString) (amount : JSNum) :
    DBState → DBState × Result :=
  SafeExecution (decrementBody pfx now key amount)

end BaseMiftahDB

/-- The public synchronous operation surface the claims exercise, with
each operation's arguments. -/
inductive PublicOp : Type
  | get (key : JSString)
  | set (key : JSString) (value : MiftahValue) (expiresAt : ExpireArg)
  | existsKey (key : JSString)
  | delete (key : JSString)
  | getExpire (key : JSString)
  | ttl (key : JSString)
  | increment (key : JSString) (amount : JSNum)
  | decrement (key : JSString) (amount : JSNum)
  | multiSet (entries : List BaseMiftahDB.SetEntry)

/-- The undecorated body of each public operation. -/
def runOpBody : PublicOp → Option JSString → Int → Comp Result
  | .get k, pfx, now => BaseMiftahDB.getBody pfx now k
  | .set k v e, pfx, now => BaseMiftahDB.setBody pfx now k v e
  | .existsKey k, pfx, _ => BaseMiftahDB.existsKeyBody pfx k
  | .delete k, pfx, _ => BaseMiftahDB.deleteBody pfx k
  | .getExpire k, pfx, _ => BaseMiftahDB.getExpireBody pfx k
  | .ttl k, pfx, now => BaseMiftahDB.ttlBody pfx now k
  | .increment k a, pfx, now => BaseMiftahDB.incrementBody pfx now k a
  | .decrement k a, pfx, now => BaseMiftahDB.decrementBody pfx now k a
  | .multiSet es, pfx, now => BaseMiftahDB.multiSetBody pfx now es

/-- Each public operation as shipped: its body behind the `@SafeExecution`
decorator. -/
def runOp (op : PublicOp) (pfx : Option JSString) (now : Int) :
    DBState → DBState × Result :=
  SafeExecution (runOpBody op pfx now)

/-- A `set` whose physical write is not injected to fail upserts the
encoded value with the normalized expiration and reports a bare success. -/
theorem set_eq_of_not_fail (pfx : Option JSString) (now : Int) (k : JSString)
    (v : MiftahValue) (e : ExpireArg) (db : DBState)
    (hf : addNamespacePrefix pfx k ∉ db.failKeys) :
    BaseMiftahDB.set pfx now k v e db =
      (⟨tableSet db.table (addNamespacePrefix pfx k)
          ⟨encodeValue v, expiresAtMs now e⟩, db.failKeys⟩, Result.ok Val.undef) := by
  simp [BaseMiftahDB.set, SafeExecution, BaseMiftahDB.setBody, stmtSetRun, hf]

/-- A `get` that finds a row not passing the expiry guard returns the
decoded value and leaves the store unchanged. -/
theorem get_eq_of_live_row (pfx : Option JSString) (now : Int) (k : JSString)
    (db : DBState) (row : EngineRow)
    (hrow : tableGet db.table (addNamespacePrefix pfx k) = some row)
    (hg : expiryGuard row.expires_at now = false) :
    BaseMiftahDB.get pfx now k db = (db, Result.ok (Val.mval (decodeValue row.value))) := by
  simp [BaseMiftahDB.get, SafeExecution, BaseMiftahDB.getBody, stmtGet, hrow, hg]

/-- C8: for every namespace handle and logical key,
`removeNamespacePrefix` undoes `addNamespacePrefix`; and a physical key
that does not start with the prefix followed by the `:` delimiter — even
one sharing the prefix's characters without the delimiter boundary — is
returned unchanged. -/
theorem claim8_prefix_roundtrip (pfx : Option JSString) (k key : JSString) :
    removeNamespacePrefix pfx (addNamespacePrefix pfx k) = k ∧
    (∀ p, pfx = some p → p ≠ [] → (p ++ [colonCU]).isPrefixOf key = false →
      removeNamespacePrefix pfx key = key) := by
  constructor
  · match pfx with
    | none => rfl
    | some p =>
      by_cases hp : p = []
      · simp [addNamespacePrefix, removeNamespacePrefix, hp]
      · have hsplit : p ++ colonCU :: k = (p ++ [colonCU]) ++ k := by
          simp
        have hpre : (p ++ [colonCU]).isPrefixOf ((p ++ [colonCU]) ++ k) = true := by
          rw [List.isPrefixOf_iff_prefix]
          exact List.prefix_append _ _
        have hlen : (p ++ [colonCU]).length = p.length + 1 := by simp
        simp only [addNamespacePrefix, removeNamespacePrefix, hp, hsplit, hpre,
          if_true, if_false]
        rw [← hlen, List.drop_left]
  · intro p hp hne hnp
    subst hp
    simp [removeNamespacePrefix, hne, hnp]

theorem claim8_prefix_roundtrip_witness :
    removeNamespacePrefix (some (jstr "user"))
        (addNamespacePrefix (some (jstr "user")) (jstr "123")) = jstr "123" ∧
    removeNamespacePrefix (some (jstr "user")) (jstr "usernames") = jstr "usernames" :=
  ⟨(claim8_prefix_roundtrip (some (jstr "user")) (jstr "123") (jstr "usernames")).1,
   (claim8_prefix_roundtrip (some (jstr "user")) (jstr "123") (jstr "usernames")).2
     (jstr "user") rfl (by decide) (by decide)⟩

/-- C7: for every supported value kind, every key and every handle, `get`
at any later (or any) time after `set` with no expiration succeeds with a
value equal to the stored one (over an engine without an injected write
failure for that physical key). -/
theorem claim7_roundtrip (pfx : Option JSString) (now now2 : Int) (k : JSString)
    (v : MiftahValue) (db : DBState)
    (hf : addNamespacePrefix pfx k ∉ db.failKeys) :
    (BaseMiftahDB.set pfx now k v ExpireArg.undef db).2 = Result.ok Val.undef ∧
    BaseMiftahDB.get pfx now2 k (BaseMiftahDB.set pfx now k v ExpireArg.undef db).1 =
      ((BaseMiftahDB.set pfx now k v ExpireArg.undef db).1,
        Result.ok (Val.mval (some v))) := by
  rw [set_eq_of_not_fail pfx now k v ExpireArg.undef db hf]
  refine ⟨rfl, ?_⟩
  rw [get_eq_of_live_row pfx now2 k _ ⟨encodeValue v, expiresAtMs now ExpireArg.undef⟩
    (tableGet_tableSet_self _ _ _) (by simp [expiresAtMs, expiryGuard])]
  rw [decodeValue_encodeValue]

theorem claim7_roundtrip_witness :
    (BaseMiftahDB.set none 0 (jstr "k") (MiftahValue.num (JSNum.finite 7))
        ExpireArg.undef ⟨[], []⟩).2 = Result.ok Val.undef ∧
    BaseMiftahDB.get none 99 (jstr "k")
        (BaseMiftahDB.set none 0 (jstr "k") (MiftahValue.num (JSNum.finite 7))
          ExpireArg.undef ⟨[], []⟩).1 =
      ((BaseMiftahDB.set none 0 (jstr "k") (MiftahValue.num (JSNum.finite 7))
          ExpireArg.undef ⟨[], []⟩).1,
        Result.ok (Val.mval (some (MiftahValue.num (JSNum.finite 7))))) :=
  claim7_roundtrip none 0 99 (jstr "k") (MiftahValue.num (JSNum.finite 7)) ⟨[], []⟩
    (by decide)

/-- C6: for every public operation, handle, time and store, the decorated
operation reports an internal throw as the uniform failure result carrying
that error, and passes a normal return through as the returned result —
nothing propagates past the operation's boundary. -/
theorem claim6_uniform_results (op : PublicOp) (pfx : Option JSString) (now : Int)
    (db db' : DBState) :
    (∀ e, runOpBody op pfx now db = (db', Except.error e) →
      runOp op pfx now db = (db', Result.err e)) ∧
    (∀ r, runOpBody op pfx now db = (db', Except.ok r) →
      runOp op pfx now db = (db', r)) := by
  constructor
  · intro e h
    simp [runOp, SafeExecution, h]
  · intro r h
    simp [runOp, SafeExecution, h]

theorem claim6_uniform_results_witness :
    runOp (PublicOp.get (jstr "k")) none 0 ⟨[], []⟩ =
      (⟨[], []⟩, Result.err errKeyNotFound) :=
  (claim6_uniform_results (PublicOp.get (jstr "k")) none 0 ⟨[], []⟩ ⟨[], []⟩).1
    errKeyNotFound rfl

/-- C1 (evaluation at the failing input): with a forced engine failure on
the write of `"k2"`, `multiSet` of `k1` then `k2` over an empty store
reports success and leaves `k1` present and `k2` absent — the failing
entry's throw is swallowed by `set`'s own `SafeExecution` decorator, the
transaction callback never throws, so the batch commits partially instead
of rolling back. -/
theorem claim1_partial_batch_observable :
    (BaseMiftahDB.multiSet none 0
      [⟨jstr "k1", MiftahValue.str (jstr "v1"), ExpireArg.undef⟩,
       ⟨jstr "k2", MiftahValue.str (jstr "v2"), ExpireArg.undef⟩]
      ⟨[], [jstr "k2"]⟩).2 = Result.ok Val.undef ∧
    tableGet (BaseMiftahDB.multiSet none 0
      [⟨jstr "k1", MiftahValue.str (jstr "v1"), ExpireArg.undef⟩,
       ⟨jstr "k2", MiftahValue.str (jstr "v2"), ExpireArg.undef⟩]
      ⟨[], [jstr "k2"]⟩).1.table (jstr "k1") =
      some ⟨encodeValue (MiftahValue.str (jstr "v1")), none⟩ ∧
    tableGet (BaseMiftahDB.multiSet none 0
      [⟨jstr "k1", MiftahValue.str (jstr "v1"), ExpireArg.undef⟩,
       ⟨jstr "k2", MiftahValue.str (jstr "v2"), ExpireArg.undef⟩]
      ⟨[], [jstr "k2"]⟩).1.table (jstr "k2") = none :=
  ⟨rfl, rfl, rfl⟩

/-- C2 (counterexample): `set(k, v, 0)` — a zero relative TTL — stores the
key with `expires_at` NULL, and the very next read at the same instant
succeeds with the value instead of reporting the key expired. -/
theorem claim2_zero_ttl_counterexample :
    tableGet (BaseMiftahDB.set none 100 (jstr "k") (MiftahValue.str (jstr "v"))
        (ExpireArg.ttlMs 0) ⟨[], []⟩).1.table (jstr "k") =
      some ⟨encodeValue (MiftahValue.str (jstr "v")), none⟩ ∧
    (BaseMiftahDB.get none 100 (jstr "k")
      (BaseMiftahDB.set none 100 (jstr "k") (MiftahValue.str (jstr "v"))
        (ExpireArg.ttlMs 0) ⟨[], []⟩).1).2 =
      Result.ok (Val.mval (some (MiftahValue.str (jstr "v")))) :=
  ⟨rfl, rfl⟩

/-- C2 (amended): a zero relative TTL fails the `if (expiresAt)`
truthiness test, so it stores no expiration at all — the key is readable
at every later time — while a negative relative TTL stores the past
timestamp `now + n` and, provided that stored timestamp is not exactly 0
(which the expiry guard treats as falsy), every read at or after `now`
reports the key expired rather than returning the value. -/
theorem claim2_amended (pfx : Option JSString) (now now2 : Int) (k : JSString)
    (v : MiftahValue) (db : DBState) (n : Int)
    (hf : addNamespacePrefix pfx k ∉ db.failKeys) :
    (expiresAtMs now (ExpireArg.ttlMs 0) = none ∧
      (BaseMiftahDB.get pfx now2 k
        (BaseMiftahDB.set pfx now k v (ExpireArg.ttlMs 0) db).1).2 =
        Result.ok (Val.mval (some v))) ∧
    (n < 0 → now + n ≠ 0 → now ≤ now2 →
      (BaseMiftahDB.get pfx now2 k
        (BaseMiftahDB.set pfx now k v (ExpireArg.ttlMs n) db).1).2 =
        Result.err errKeyExpired) := by
  constructor
  · refine ⟨rfl, ?_⟩
    rw [set_eq_of_not_fail pfx now k v (ExpireArg.ttlMs 0) db hf]
    rw [get_eq_of_live_row pfx now2 k _ ⟨encodeValue v, expiresAtMs now (ExpireArg.ttlMs 0)⟩
      (tableGet_tableSet_self _ _ _) (by simp [expiresAtMs, expiryGuard])]
    rw [decodeValue_encodeValue]
  · intro hneg hnz hle
    rw [set_eq_of_not_fail pfx now k v (ExpireArg.ttlMs n) db hf]
    have hea : expiresAtMs now (ExpireArg.ttlMs n) = some (now + n) := by
      simp [expiresAtMs]
      omega
    have hguard : expiryGuard (some (now + n)) now2 = true := by
      simp [expiryGuard]
      omega
    simp only [BaseMiftahDB.get, SafeExecution, BaseMiftahDB.getBody, stmtGet, hea,
      tableGet_tableSet_self, hguard, if_true]

theorem claim2_amended_witness :
    (expiresAtMs 100 (ExpireArg.ttlMs 0) = none ∧
      (BaseMiftahDB.get none 200 (jstr "k")
        (BaseMiftahDB.set none 100 (jstr "k") (MiftahValue.null)
          (ExpireArg.ttlMs 0) ⟨[], []⟩).1).2 =
        Result.ok (Val.mval (some MiftahValue.null))) ∧
    (BaseMiftahDB.get none 100 (jstr "k")
      (BaseMiftahDB.set none 100 (jstr "k") (MiftahValue.null)
        (ExpireArg.ttlMs (-10)) ⟨[], []⟩).1).2 =
      Result.err errKeyExpired :=
  ⟨(claim2_amended none 100 200 (jstr "k") MiftahValue.null ⟨[], []⟩ (-10)
      (by decide)).1,
   (claim2_amended none 100 100 (jstr "k") MiftahValue.null ⟨[], []⟩ (-10)
      (by decide)).2 (by decide) (by decide) (by decide)⟩

/-- C3 (counterexample): on a store holding a row whose `expires_at` is 5
— long past any current time such as 1000 — `getExpire` returns a
successful result carrying the stale expiration date and leaves the row
in place, and `exists` reports success; neither deletes the row nor
reports it expired (`getExpire` and `exists` take no notion of "now" at
all). -/
theorem claim3_stale_read_counterexample :
    BaseMiftahDB.getExpire none (jstr "k")
      ⟨[(jstr "k", ⟨encodeValue (MiftahValue.str (jstr "v")), some 5⟩)], []⟩ =
      (⟨[(jstr "k", ⟨encodeValue (MiftahValue.str (jstr "v")), some 5⟩)], []⟩,
        Result.ok (Val.datev 5)) ∧
    BaseMiftahDB.existsKey none (jstr "k")
      ⟨[(jstr "k", ⟨encodeValue (MiftahValue.str (jstr "v")), some 5⟩)], []⟩ =
      (⟨[(jstr "k", ⟨encodeValue (MiftahValue.str (jstr "v")), some 5⟩)], []⟩,
        Result.ok (Val.boolv true)) :=
  ⟨rfl, rfl⟩

/-- C3 (amended): on the root handle, for every row whose `expires_at` is
non-null, nonzero and `<= now`: `get` and `ttl` delete the row and report
`Key expired`; `exists` reports success (true) while checking only
physical presence and deleting nothing; and `getExpire` returns the stored
(stale) expiration without deleting. -/
theorem claim3_amended (k : JSString) (row : EngineRow) (db : DBState) (now t : Int)
    (hrow : tableGet db.table k = some row)
    (hea : row.expires_at = some t) (ht0 : t ≠ 0) (hle : t ≤ now) :
    BaseMiftahDB.get none now k db =
      (⟨(tableDelete db.table k).1, db.failKeys⟩, Result.err errKeyExpired) ∧
    BaseMiftahDB.ttl none now k db =
      (⟨(tableDelete db.table k).1, db.failKeys⟩, Result.err errKeyExpired) ∧
    BaseMiftahDB.existsKey none k db = (db, Result.ok (Val.boolv true)) ∧
    BaseMiftahDB.getExpire none k db = (db, Result.ok (Val.datev t)) := by
  have hguard : expiryGuard row.expires_at now = true := by
    simp [expiryGuard, hea]
    omega
  refine ⟨?_, ?_, ?_, ?_⟩
  · simp [BaseMiftahDB.get, SafeExecution, BaseMiftahDB.getBody, stmtGet,
      addNamespacePrefix, hrow, hguard, BaseMiftahDB.delete, BaseMiftahDB.deleteBody,
      stmtDeleteRun]
  · simp [BaseMiftahDB.ttl, SafeExecution, BaseMiftahDB.ttlBody, stmtGetExpireGet,
      addNamespacePrefix, hrow, hea, hle, BaseMiftahDB.delete, BaseMiftahDB.deleteBody,
      stmtDeleteRun]
  · simp [BaseMiftahDB.existsKey, SafeExecution, BaseMiftahDB.existsKeyBody,
      stmtExistsGet, addNamespacePrefix, hrow]
  · simp [BaseMiftahDB.getExpire, SafeExecution, BaseMiftahDB.getExpireBody,
      stmtGetExpireGet, addNamespacePrefix, hrow, hea, ht0]

theorem claim3_amended_witness :
    BaseMiftahDB.get none 1000 (jstr "k")
      ⟨[(jstr "k", ⟨encodeValue MiftahValue.null, some 5⟩)], []⟩ =
      (⟨[], []⟩, Result.err errKeyExpired) ∧
    BaseMiftahDB.ttl none 1000 (jstr "k")
      ⟨[(jstr "k", ⟨encodeValue MiftahValue.null, some 5⟩)], []⟩ =
      (⟨[], []⟩, Result.err errKeyExpired) ∧
    BaseMiftahDB.existsKey none (jstr "k")
      ⟨[(jstr "k", ⟨encodeValue MiftahValue.null, some 5⟩)], []⟩ =
      (⟨[(jstr "k", ⟨encodeValue MiftahValue.null, some 5⟩)], []⟩,
        Result.ok (Val.boolv true)) ∧
    BaseMiftahDB.getExpire none (jstr "k")
      ⟨[(jstr "k", ⟨encodeValue MiftahValue.null, some 5⟩)], []⟩ =
      (⟨[(jstr "k", ⟨encodeValue MiftahValue.null, some 5⟩)], []⟩,
        Result.ok (Val.datev 5)) := by
  have h := claim3_amended (jstr "k") ⟨encodeValue MiftahValue.null, some 5⟩
    ⟨[(jstr "k", ⟨encodeValue MiftahValue.null, some 5⟩)], []⟩ 1000 5
    rfl rfl (by decide) (by decide)
  exact h

/-- C4 (counterexample): a stored byte sequence starting with the
unrecognized tag 0 decodes to `null` — the throw is caught inside
`decodeValue` — and `get` on a key holding those bytes returns a
successful result carrying `null`, not a failed result. -/
theorem claim4_decode_failure_counterexample :
    decodeValue [0] = none ∧
    BaseMiftahDB.get none 0 (jstr "k") ⟨[(jstr "k", ⟨[0], none⟩)], []⟩ =
      (⟨[(jstr "k", ⟨[0], none⟩)], []⟩, Result.ok (Val.mval none)) :=
  ⟨rfl, rfl⟩

/-- C4 (amended): for every stored byte sequence whose first byte is not a
recognized tag (1 or 2), `decodeValue` yields `null` (the internal throw
is caught and logged, not surfaced as an `EncodingError`), and `get` on a
live key holding such bytes returns a successful result carrying `null`
rather than a failed result. -/
theorem claim4_amended (m : Nat) (bs : List Nat) (pfx : Option JSString) (now : Int)
    (k : JSString) (db : DBState) (row : EngineRow)
    (hm1 : m ≠ 1) (hm2 : m ≠ 2)
    (hrow : tableGet db.table (addNamespacePrefix pfx k) = some row)
    (hval : row.value = m :: bs)
    (hguard : expiryGuard row.expires_at now = false) :
    decodeValue (m :: bs) = none ∧
    BaseMiftahDB.get pfx now k db = (db, Result.ok (Val.mval none)) := by
  have hdec : decodeValue (m :: bs) = none := by
    simp [decodeValue, hm1, hm2]
  refine ⟨hdec, ?_⟩
  rw [get_eq_of_live_row pfx now k db row hrow hguard]
  rw [hval, hdec]

theorem claim4_amended_witness :
    decodeValue [9, 3] = none ∧
    BaseMiftahDB.get none 0 (jstr "k") ⟨[(jstr "k", ⟨[9, 3], none⟩)], []⟩ =
      (⟨[(jstr "k", ⟨[9, 3], none⟩)], []⟩, Result.ok (Val.mval none)) :=
  claim4_amended 9 [3] none 0 (jstr "k") ⟨[(jstr "k", ⟨[9, 3], none⟩)], []⟩
    ⟨[9, 3], none⟩ (by decide) (by decide) rfl rfl rfl

/-- C5: on an engine without an injected failure for the key and a non-NaN
amount: an absent key is treated as current value 0 with no expiration
(so `increment` yields `0 + amount` and `decrement` `0 - amount`); a
present but expired key behaves the same and carries no expiration
forward (no resurrection of the old expiration); and a live numeric key
yields `current ± amount` with its original expiration preserved
unchanged. In every case the new value is both returned and upserted. -/
theorem claim5_numeric_mutation (pfx : Option JSString) (now : Int) (k : JSString)
    (amt : JSNum) (db : DBState)
    (hnan : amt.isNaNb = false)
    (hf : addNamespacePrefix pfx k ∉ db.failKeys) :
    (tableGet db.table (addNamespacePrefix pfx k) = none →
      BaseMiftahDB.increment pfx now k amt db =
        (⟨tableSet db.table (addNamespacePrefix pfx k)
            ⟨encodeValue (MiftahValue.num ((JSNum.finite 0).add amt)), none⟩,
          db.failKeys⟩,
          Result.ok (Val.numv ((JSNum.finite 0).add amt))) ∧
      BaseMiftahDB.decrement pfx now k amt db =
        (⟨tableSet db.table (addNamespacePrefix pfx k)
            ⟨encodeValue (MiftahValue.num ((JSNum.finite 0).sub amt)), none⟩,
          db.failKeys⟩,
          Result.ok (Val.numv ((JSNum.finite 0).sub amt)))) ∧
    (∀ row, tableGet db.table (addNamespacePrefix pfx k) = some row →
      expiryGuard row.expires_at now = true →
      BaseMiftahDB.increment pfx now k amt db =
        (⟨tableSet db.table (addNamespacePrefix pfx k)
            ⟨encodeValue (MiftahValue.num ((JSNum.finite 0).add amt)), none⟩,
          db.failKeys⟩,
          Result.ok (Val.numv ((JSNum.finite 0).add amt))) ∧
      BaseMiftahDB.decrement pfx now k amt db =
        (⟨tableSet db.table (addNamespacePrefix pfx k)
            ⟨encodeValue (MiftahValue.num ((JSNum.finite 0).sub amt)), none⟩,
          db.failKeys⟩,
          Result.ok (Val.numv ((JSNum.finite 0).sub amt)))) ∧
    (∀ row n, tableGet db.table (addNamespacePrefix pfx k) = some row →
      expiryGuard row.expires_at now = false →
      decodeValue row.value = some (MiftahValue.num n) → n.isNaNb = false →
      BaseMiftahDB.increment pfx now k amt db =
        (⟨tableSet db.table (addNamespacePrefix pfx k)
            ⟨encodeValue (MiftahValue.num (n.add amt)), row.expires_at⟩,
          db.failKeys⟩,
          Result.ok (Val.numv (n.add amt))) ∧
      BaseMiftahDB.decrement pfx now k amt db =
        (⟨tableSet db.table (addNamespacePrefix pfx k)
            ⟨encodeValue (MiftahValue.num (n.sub amt)), row.expires_at⟩,
          db.failKeys⟩,
          Result.ok (Val.numv (n.sub amt)))) := by
  refine ⟨?_, ?_, ?_⟩
  · intro habs
    constructor
    · simp [BaseMiftahDB.increment, SafeExecution, BaseMiftahDB.incrementBody, hnan,
        BaseMiftahDB.modifyNumericValue, dbTransaction, BaseMiftahDB.modifyNumericTx,
        habs, BaseMiftahDB.modifyNumericWrite, stmtSetRun, hf]
    · simp [BaseMiftahDB.decrement, SafeExecution, BaseMiftahDB.decrementBody, hnan,
        BaseMiftahDB.modifyNumericValue, dbTransaction, BaseMiftahDB.modifyNumericTx,
        habs, BaseMiftahDB.modifyNumericWrite, stmtSetRun, hf]
  · intro row hrow hguard
    constructor
    · simp [BaseMiftahDB.increment, SafeExecution, BaseMiftahDB.incrementBody, hnan,
        BaseMiftahDB.modifyNumericValue, dbTransaction, BaseMiftahDB.modifyNumericTx,
        hrow, hguard, BaseMiftahDB.modifyNumericWrite, stmtSetRun, hf]
    · simp [BaseMiftahDB.decrement, SafeExecution, BaseMiftahDB.decrementBody, hnan,
        BaseMiftahDB.modifyNumericValue, dbTransaction, BaseMiftahDB.modifyNumericTx,
        hrow, hguard, BaseMiftahDB.modifyNumericWrite, stmtSetRun, hf]
  · intro row n hrow hguard hdec hnn
    constructor
    · simp [BaseMiftahDB.increment, SafeExecution, BaseMiftahDB.incrementBody, hnan,
        BaseMiftahDB.modifyNumericValue, dbTransaction, BaseMiftahDB.modifyNumericTx,
        hrow, hguard, hdec, hnn, BaseMiftahDB.modifyNumericWrite, stmtSetRun, hf]
    · simp [BaseMiftahDB.decrement, SafeExecution, BaseMiftahDB.decrementBody, hnan,
        BaseMiftahDB.modifyNumericValue, dbTransaction, BaseMiftahDB.modifyNumericTx,
        hrow, hguard, hdec, hnn, BaseMiftahDB.modifyNumericWrite, stmtSetRun, hf]

theorem claim5_numeric_mutation_witness :
    (BaseMiftahDB.increment none 0 (jstr "c") (JSNum.finite 1) ⟨[], []⟩ =
      (⟨[(jstr "c", ⟨encodeValue (MiftahValue.num (JSNum.finite 1)), none⟩)], []⟩,
        Result.ok (Val.numv (JSNum.finite 1))) ∧
    BaseMiftahDB.decrement none 0 (jstr "c") (JSNum.finite 1) ⟨[], []⟩ =
      (⟨[(jstr "c", ⟨encodeValue (MiftahValue.num (JSNum.finite (-1))), none⟩)], []⟩,
        Result.ok (Val.numv (JSNum.finite (-1))))) ∧
    BaseMiftahDB.decrement none 1000 (jstr "e") (JSNum.finite 1)
        ⟨[(jstr "e", ⟨encodeValue (MiftahValue.num (JSNum.finite 5)), some 5⟩)], []⟩ =
      (⟨[(jstr "e", ⟨encodeValue (MiftahValue.num (JSNum.finite (-1))), none⟩)], []⟩,
        Result.ok (Val.numv (JSNum.finite (-1)))) ∧
    BaseMiftahDB.decrement none 1000 (jstr "l") (JSNum.finite 1)
        ⟨[(jstr "l", ⟨encodeValue (MiftahValue.num (JSNum.finite 5)), some 2000⟩)], []⟩ =
      (⟨[(jstr "l", ⟨encodeValue (MiftahValue.num (JSNum.finite 4)), some 2000⟩)], []⟩,
        Result.ok (Val.numv (JSNum.finite 4))) := by
  refine ⟨?_, ?_, ?_⟩
  · have h := (claim5_numeric_mutation none 0 (jstr "c") (JSNum.finite 1) ⟨[], []⟩
      rfl (by decide)).1 rfl
    constructor
    · rw [h.1]
      norm_num [JSNum.add, tableSet, addNamespacePrefix]
    · rw [h.2]
      norm_num [JSNum.sub, tableSet, addNamespacePrefix]
  · have h := ((claim5_numeric_mutation none 1000 (jstr "e") (JSNum.finite 1)
      ⟨[(jstr "e", ⟨encodeValue (MiftahValue.num (JSNum.finite 5)), some 5⟩)], []⟩
      rfl (by decide)).2.1 ⟨encodeValue (MiftahValue.num (JSNum.finite 5)), some 5⟩
      rfl (by decide)).2
    rw [h]
    norm_num [JSNum.sub, tableSet, addNamespacePrefix]
  · have h := ((claim5_numeric_mutation none 1000 (jstr "l") (JSNum.finite 1)
      ⟨[(jstr "l", ⟨encodeValue (MiftahValue.num (JSNum.finite 5)), some 2000⟩)], []⟩
      rfl (by decide)).2.2 ⟨encodeValue (MiftahValue.num (JSNum.finite 5)), some 2000⟩
      (JSNum.finite 5) rfl (by decide)
      (decodeValue_encodeValue (MiftahValue.num (JSNum.finite 5))) rfl).2
    rw [h]
    norm_num [JSNum.sub, tableSet, addNamespacePrefix]

/-- C9 (counterexample): an infinite amount is not rejected — `isNaN`
passes `Infinity` — so `increment(k, Infinity)` on an empty store
succeeds, returns `Infinity`, and writes a row, contradicting the claimed
rejection before the transaction with the store left unchanged. -/
theorem claim9_infinite_amount_counterexample :
    (BaseMiftahDB.increment none 0 (jstr "k") JSNum.posInf ⟨[], []⟩).2 =
      Result.ok (Val.numv JSNum.posInf) ∧
    (BaseMiftahDB.increment none 0 (jstr "k") JSNum.posInf ⟨[], []⟩).1.table =
      [(jstr "k", ⟨encodeValue (MiftahValue.num JSNum.posInf), none⟩)] :=
  ⟨rfl, rfl⟩

/-- C9 (amended): the amount validation of `increment`/`decrement`
(`typeof amount !== "number" || isNaN(amount)`) rejects a NaN amount with
the validation failure before the transaction starts, leaving the store
unchanged; it does not reject infinite amounts, which proceed into the
mutation. -/
theorem claim9_amended (pfx : Option JSString) (now : Int) (k : JSString) (db : DBState) :
    BaseMiftahDB.increment pfx now k JSNum.nan db =
      (db, Result.err errIncrementAmount) ∧
    BaseMiftahDB.decrement pfx now k JSNum.nan db =
      (db, Result.err errDecrementAmount) :=
  ⟨rfl, rfl⟩

/-- C10 (counterexample): a physically present but expired row (its
`expires_at` of 5 is far past any later current time, such as 1000) makes
`exists` return a successful result carrying `true` — not the claimed
`Key not found` failure; `exists` never consults the current time. -/
theorem claim10_expired_exists_counterexample :
    BaseMiftahDB.existsKey none (jstr "k")
      ⟨[(jstr "k", ⟨encodeValue MiftahValue.null, some 5⟩)], []⟩ =
      (⟨[(jstr "k", ⟨encodeValue MiftahValue.null, some 5⟩)], []⟩,
        Result.ok (Val.boolv true)) := rfl

/-- C10 (amended): `exists` fails with `Key not found` exactly when no
physical row with the key is present (regardless of expiry); on any
present row — expired or not — it returns success carrying `true`; and no
successful `exists` result ever carries `false`. -/
theorem claim10_amended (pfx : Option JSString) (k : JSString) (db : DBState) :
    (tableGet db.table (addNamespacePrefix pfx k) = none →
      BaseMiftahDB.existsKey pfx k db = (db, Result.err errKeyNotFound)) ∧
    (∀ row, tableGet db.table (addNamespacePrefix pfx k) = some row →
      BaseMiftahDB.existsKey pfx k db = (db, Result.ok (Val.boolv true))) ∧
    (∀ db' b, BaseMiftahDB.existsKey pfx k db = (db', Result.ok (Val.boolv b)) →
      b = true) := by
  refine ⟨?_, ?_, ?_⟩
  · intro habs
    simp [BaseMiftahDB.existsKey, SafeExecution, BaseMiftahDB.existsKeyBody,
      stmtExistsGet, habs]
  · intro row hrow
    simp [BaseMiftahDB.existsKey, SafeExecution, BaseMiftahDB.existsKeyBody,
      stmtExistsGet, hrow]
  · intro db' b h
    match hrow : tableGet db.table (addNamespacePrefix pfx k) with
    | none =>
      rw [(by
        simp [BaseMiftahDB.existsKey, SafeExecution, BaseMiftahDB.existsKeyBody,
          stmtExistsGet, hrow] :
        BaseMiftahDB.existsKey pfx k db = (db, Result.err errKeyNotFound))] at h
      exact absurd (congrArg Prod.snd h) (by simp)
    | some row =>
      rw [(by
        simp [BaseMiftahDB.existsKey, SafeExecution, BaseMiftahDB.existsKeyBody,
          stmtExistsGet, hrow] :
        BaseMiftahDB.existsKey pfx k db = (db, Result.ok (Val.boolv true)))] at h
      have := congrArg Prod.snd h
      simp at this
      exact this

theorem claim10_amended_witness :
    BaseMiftahDB.existsKey none (jstr "a") ⟨[], []⟩ =
      (⟨[], []⟩, Result.err errKeyNotFound) ∧
    BaseMiftahDB.existsKey none (jstr "k") ⟨[(jstr "k", ⟨[7], none⟩)], []⟩ =
      (⟨[(jstr "k", ⟨[7], none⟩)], []⟩, Result.ok (Val.boolv true)) :=
  ⟨(claim10_amended none (jstr "a") ⟨[], []⟩).1 rfl,
   (claim10_amended none (jstr "k") ⟨[(jstr "k", ⟨[7], none⟩)], []⟩).2.1
     ⟨[7], none⟩ rfl⟩

end MiftahDB
